import Mathlib

/-!
Verification of the to-do list logic of `src/my-element.ts` (a Lit web
component).  The component keeps a canonical list of tasks, persists it as a
JSON blob in `localStorage` under the key `"todo-list"`, and supports
add / toggle / delete operations plus a debounced toggle and a derived
display ordering.  We embed the state-update logic shallowly: the mutators
become pure functions on the task list, `localStorage` becomes an
`Option Blob` value, and `crypto.randomUUID` becomes an injected stream of
fresh identifiers.
-/

namespace TodoLit

/-- The `TodoItem` interface of the source: `{ title: string; completed:
boolean; id: string }`. -/
structure TodoItem where
  title : String
  completed : Bool
  id : String
deriving DecidableEq, Repr

/-- JSON values, as produced by the platform's `JSON.parse`.  Numbers are
modelled as integers, which suffices for this program (it never stores
numbers). -/
inductive Json where
  | null : Json
  | bool (b : Bool) : Json
  | num (n : Int) : Json
  | str (s : String) : Json
  | arr (xs : List Json) : Json
  | obj (fields : List (String × Json)) : Json
deriving Repr

/-- A string held in `localStorage`, viewed through the platform JSON codec:
`Blob.empty` is the empty string `""` (which is falsy in JS and is not valid
JSON), `Blob.invalid s` is a non-empty string that `JSON.parse` rejects, and
`Blob.val j` is a non-empty string that `JSON.parse` reads as the JSON value
`j`.  `JSON.stringify` always yields a `Blob.val`; `parse (stringify v) = v`
is the platform codec's guarantee. -/
inductive Blob where
  | empty : Blob
  | invalid (text : String) : Blob
  | val (j : Json) : Blob
deriving Repr

/-- The exceptions the load path can raise: `JSON.parse` throws a
`SyntaxError` on text that is not valid JSON, and calling `.map` on a
non-array value throws a `TypeError`. -/
inductive JsError where
  | parseError : JsError
  | typeError : JsError
deriving DecidableEq, Repr

/-- The platform's `JSON.parse` on a stored blob: the empty string and
invalid text throw a `SyntaxError`; valid JSON text yields its value. -/
def jsonParse : Blob → Except JsError Json
  | Blob.empty => Except.error JsError.parseError
  | Blob.invalid _ => Except.error JsError.parseError
  | Blob.val j => Except.ok j

/-- The own enumerable properties contributed by `{...item}` (JS object
spread): objects contribute their fields, strings and arrays contribute
their index properties, and primitives contribute nothing. -/
def jsSpread : Json → List (String × Json)
  | Json.obj fs => fs
  | Json.str s => s.toList.enum.map (fun p => (toString p.1, Json.str (String.mk [p.2])))
  | Json.arr xs => xs.enum.map (fun p => (toString p.1, p.2))
  | _ => []

/-- Writing property `k` in an object literal: if `k` is already present it
is overwritten in place (JS keeps the original insertion position),
otherwise it is appended. -/
def setProp (fs : List (String × Json)) (k : String) (v : Json) : List (String × Json) :=
  if fs.any (fun p => p.1 = k) then
    fs.map (fun p => if p.1 = k then (k, v) else p)
  else
    fs ++ [(k, v)]

/-- `JSON.stringify` of one task object `{title, completed, id}` at the
value level (field order is the object literal's insertion order). -/
def encodeItem (t : TodoItem) : Json :=
  Json.obj [("title", Json.str t.title), ("completed", Json.bool t.completed),
    ("id", Json.str t.id)]

/-- `localStorage.setItem("todo-list", JSON.stringify(list))`: the blob the
component writes after every mutation. -/
def save (list : List TodoItem) : Blob :=
  Blob.val (Json.arr (list.map encodeItem))

/-- The `.map((item) => ({ ...item, id: crypto.randomUUID() }))` pass of the
initializer: every parsed record is spread and its `id` property is set to a
freshly drawn identifier, regardless of whether an `id` was stored.  `fresh
i` is the i-th value drawn from `crypto.randomUUID`. -/
def loadedItems (fresh : Nat → String) : Nat → List Json → List Json
  | _, [] => []
  | i, item :: rest =>
      Json.obj (setProp (jsSpread item) "id" (Json.str (fresh i)))
        :: loadedItems fresh (i + 1) rest

/-- The `_list` initializer:
`JSON.parse(localStorage.getItem("todo-list") || "[]").map(...)`.
A missing key (`getItem` returns `null`) and the empty string are both falsy,
so `"[]"` is parsed instead; any other blob goes to `JSON.parse` as is, whose
`SyntaxError` propagates; a parsed non-array value makes `.map` throw a
`TypeError`. -/
def load (stored : Option Blob) (fresh : Nat → String) : Except JsError (List Json) :=
  let text : Blob :=
    match stored with
    | none => Blob.val (Json.arr [])
    | some Blob.empty => Blob.val (Json.arr [])
    | some b => b
  match jsonParse text with
  | Except.error e => Except.error e
  | Except.ok (Json.arr items) => Except.ok (loadedItems fresh 0 items)
  | Except.ok _ => Except.error JsError.typeError

/-- What the loader actually does to the ids: record `i` of the stored list
keeps its title and completed flag but receives the fresh id `fresh i`.
(Comparison definition for the round-trip property.) -/
def reassignIds (fresh : Nat → String) : Nat → List TodoItem → List TodoItem
  | _, [] => []
  | i, t :: ts => { t with id := fresh i } :: reassignIds fresh (i + 1) ts

/-- The component state touched by the handlers: the canonical list
(`this._list`), the text currently in the input field
(`this._todoInput.value`), and the `"todo-list"` slot of `localStorage`. -/
structure ElementState where
  _list : List TodoItem
  todoInput : String
  storage : Option Blob

/-- The list transform inside `_handleCheckedTodo`: map over the list,
flipping `completed` on every item whose `id` matches. -/
def checkedList (list : List TodoItem) (id : String) : List TodoItem :=
  list.map fun item =>
    if item.id = id then { item with completed := !item.completed } else item

/-- The list transform inside `_handleDeleteTodo`:
`this._list.filter((item) => item.id !== id)`. -/
def deletedList (list : List TodoItem) (id : String) : List TodoItem :=
  list.filter fun item => item.id != id

/-- `_handleCheckedTodo(id)`: replace `_list` with the flipped list and
persist it.  The input field is untouched. -/
def _handleCheckedTodo (s : ElementState) (id : String) : ElementState :=
  let newList := checkedList s._list id
  { s with _list := newList, storage := some (save newList) }

/-- `_handleAddTodo()`: read the input field; `if (!value) return;` rejects
exactly the empty string (the only falsy string); otherwise append
`{title: value, completed: false, id: crypto.randomUUID()}`, persist, and
clear the field.  `freshId` is the value drawn from `crypto.randomUUID`. -/
def _handleAddTodo (s : ElementState) (freshId : String) : ElementState :=
  let value := s.todoInput
  if value = "" then s
  else
    let newList := s._list ++ [{ title := value, completed := false, id := freshId }]
    { _list := newList, storage := some (save newList), todoInput := "" }

/-- `_handleDeleteTodo(id)`: replace `_list` with the filtered list and
persist it. -/
def _handleDeleteTodo (s : ElementState) (id : String) : ElementState :=
  let newList := deletedList s._list id
  { s with _list := newList, storage := some (save newList) }

/-- The sort comparator of `render()`:
`(a, b) => { if (a.completed === b.completed) return 0; return a.completed ? 1 : -1; }`. -/
def sortComparator (a b : TodoItem) : Int :=
  if a.completed = b.completed then 0 else if a.completed then 1 else -1

/-- Insert `x` (an element arriving earlier in the array) in front of the
first element it does not compare after.  Placing `x` before every
comparator-equal element realizes the stability ECMAScript requires of
`Array.prototype.sort`. -/
def sortInsert (x : TodoItem) : List TodoItem → List TodoItem
  | [] => [x]
  | y :: ys => if sortComparator x y ≤ 0 then x :: y :: ys else y :: sortInsert x ys

/-- `[...this._list].sort(comparator)`: a stable sort of a copy of the
canonical list.  For a consistent comparator the stable-sorted order is
unique, so this insertion sort is an exact model of the call. -/
def sortedList (list : List TodoItem) : List TodoItem :=
  match list with
  | [] => []
  | x :: xs => sortInsert x (sortedList xs)

/-- The debounce gate of `debounce(func, wait)` on a sequence of timed
requests `(arrival time in ms, id)`, listed in arrival order.  Each new
request `clearTimeout`s the pending timer and arms a new one, so a request's
callback runs (at its arrival time plus `wait`) exactly when no later
request arrives strictly within `wait` ms of it.  Returns the fired
callbacks as `(firing time, id)` pairs, in firing order. -/
def debounceFires (wait : Nat) : List (Nat × String) → List (Nat × String)
  | [] => []
  | [e] => [(e.1 + wait, e.2)]
  | e1 :: e2 :: rest =>
      if e2.1 < e1.1 + wait then debounceFires wait (e2 :: rest)
      else (e1.1 + wait, e1.2) :: debounceFires wait (e2 :: rest)

/-- `debouncedCheckTodo` over a whole request sequence: each fired callback
runs `_handleCheckedTodo` (flip and persist) on the current state, with the
300 ms window of the source. -/
def debouncedCheckTodo (s : ElementState) (events : List (Nat × String)) : ElementState :=
  (debounceFires 300 events).foldl (fun acc e => _handleCheckedTodo acc e.2) s

/-- C5: toggling by id preserves the length, maps the task at every index to
itself with `completed` flipped exactly when its id matches, and is the
identity when no task's id matches. -/
theorem checked_todo_spec (l : List TodoItem) (id : String) :
    (checkedList l id).length = l.length
    ∧ (∀ i : Nat, (checkedList l id)[i]? =
        (l[i]?).map (fun t =>
          if t.id = id then { t with completed := !t.completed } else t))
    ∧ ((∀ t ∈ l, t.id ≠ id) → checkedList l id = l) := by
  refine ⟨List.length_map _ _, fun i => by simp [checkedList], ?_⟩
  intro h
  induction l with
  | nil => rfl
  | cons t ts ih =>
      have ht : t.id ≠ id := h t (List.mem_cons_self t ts)
      simp only [checkedList, List.map_cons, if_neg ht]
      have : checkedList ts id = ts := ih fun x hx => h x (List.mem_cons_of_mem t hx)
      simpa [checkedList] using this

/-- C5 witness: a no-match toggle on a concrete list leaves it unchanged. -/
theorem checked_todo_spec_witness :
    (∀ t ∈ [TodoItem.mk "A" false "x"], t.id ≠ "z")
    ∧ checkedList [TodoItem.mk "A" false "x"] "z" = [TodoItem.mk "A" false "x"] :=
  ⟨by decide, (checked_todo_spec [TodoItem.mk "A" false "x"] "z").2.2 (by decide)⟩

/-- C9: toggling the same id twice (both applications going through, i.e.
the debounce window elapsed between them) restores the list exactly,
including the matched task's `completed` flag and every position. -/
theorem checked_todo_involution (l : List TodoItem) (id : String) :
    checkedList (checkedList l id) id = l := by
  unfold checkedList
  rw [List.map_map]
  conv_rhs => rw [← List.map_id l]
  refine List.map_congr_left fun t _ => ?_
  simp only [Function.comp_apply, id_eq]
  by_cases h : t.id = id
  · rw [if_pos h,
      if_pos (show ({ t with completed := !t.completed } : TodoItem).id = id from h),
      Bool.not_not]
  · rw [if_neg h, if_neg h]

/-- The filtered list's length plus the number of matching tasks is the
original length. -/
theorem deletedList_length_add_countP (l : List TodoItem) (X : String) :
    (deletedList l X).length + l.countP (fun t => t.id == X) = l.length := by
  induction l with
  | nil => rfl
  | cons t ts ih =>
      by_cases h : t.id = X
      · simp only [deletedList] at ih ⊢
        simp [List.filter_cons, List.countP_cons, h]
        omega
      · simp only [deletedList] at ih ⊢
        simp [List.filter_cons, List.countP_cons, h]
        omega

/-- C7: deleting id X from a list with exactly one matching task shrinks the
length by one; the result never contains a task with id X, is a sublist of
the original (remaining tasks unchanged, original relative order), and
deleting an absent id is the identity. -/
theorem delete_todo_spec (l : List TodoItem) (X : String) :
    (l.countP (fun t => t.id == X) = 1 → (deletedList l X).length = l.length - 1)
    ∧ (∀ t ∈ deletedList l X, t.id ≠ X)
    ∧ (deletedList l X).Sublist l
    ∧ ((∀ t ∈ l, t.id ≠ X) → deletedList l X = l) := by
  refine ⟨?_, ?_, List.filter_sublist l, ?_⟩
  · intro h1
    have hkey := deletedList_length_add_countP l X
    omega
  · intro t ht
    have := List.of_mem_filter ht
    simpa using this
  · intro h
    refine List.filter_eq_self.mpr fun t ht => ?_
    simpa using h t ht

/-- C7 witness: deleting the unique task with id "x" from a concrete
two-task list, and deleting an absent id. -/
theorem delete_todo_spec_witness :
    ([TodoItem.mk "A" false "x", TodoItem.mk "B" true "y"].countP (fun t => t.id == "x") = 1
      ∧ (deletedList [TodoItem.mk "A" false "x", TodoItem.mk "B" true "y"] "x").length = 1)
    ∧ ((∀ t ∈ [TodoItem.mk "A" false "x"], t.id ≠ "z")
      ∧ deletedList [TodoItem.mk "A" false "x"] "z" = [TodoItem.mk "A" false "x"]) :=
  ⟨⟨by decide,
      (delete_todo_spec [TodoItem.mk "A" false "x", TodoItem.mk "B" true "y"] "x").1 (by decide)⟩,
    ⟨by decide, (delete_todo_spec [TodoItem.mk "A" false "x"] "z").2.2.2 (by decide)⟩⟩

/-- C10: even when several tasks share an id (uniqueness invariant
violated), delete removes every matching task — none survive the filter —
and toggle flips `completed` at every matching index, not only the first. -/
theorem duplicate_id_semantics (l : List TodoItem) (X : String) :
    (deletedList l X).countP (fun t => t.id == X) = 0
    ∧ (∀ i : Nat, ∀ t : TodoItem, l[i]? = some t → t.id = X →
        (checkedList l X)[i]? = some { t with completed := !t.completed }) := by
  constructor
  · refine List.countP_eq_zero.mpr fun t ht => ?_
    have := List.of_mem_filter ht
    simpa using this
  · intro i t hti htX
    simp [checkedList, hti, htX]

/-- C10 witness: in a list where two tasks share id "d", delete removes
both and toggle flips the second matching task as well. -/
theorem duplicate_id_semantics_witness :
    (deletedList [TodoItem.mk "A" false "d", TodoItem.mk "B" true "d"] "d").countP
        (fun t => t.id == "d") = 0
    ∧ (checkedList [TodoItem.mk "A" false "d", TodoItem.mk "B" true "d"] "d")[1]?
        = some (TodoItem.mk "B" false "d") := by
  refine ⟨(duplicate_id_semantics [TodoItem.mk "A" false "d", TodoItem.mk "B" true "d"] "d").1, ?_⟩
  have := (duplicate_id_semantics [TodoItem.mk "A" false "d", TodoItem.mk "B" true "d"] "d").2
    1 (TodoItem.mk "B" true "d") rfl rfl
  simpa using this

/-- C3 counterexample: the claim says a whitespace-only title is silently
rejected, but `if (!value) return;` only rejects the empty string — a title
of one space is truthy and is appended to the list. -/
theorem add_whitespace_counterexample :
    (_handleAddTodo { _list := [], todoInput := " ", storage := none } "u")._list
      ≠ ([] : List TodoItem) := by
  decide

/-- C3 amended: only the empty title is rejected (a falsy check, with no
trimming): on empty input the add is a complete no-op — list, storage and
input field all unchanged — while any non-empty input, whitespace-only
included, is appended; the field is cleared exactly on a successful add. -/
theorem add_empty_noop (s : ElementState) (u : String) :
    (s.todoInput = "" → _handleAddTodo s u = s)
    ∧ (s.todoInput ≠ "" →
        (_handleAddTodo s u)._list
            = s._list ++ [{ title := s.todoInput, completed := false, id := u }]
          ∧ (_handleAddTodo s u).todoInput = "") := by
  constructor
  · intro h
    simp [_handleAddTodo, h]
  · intro h
    simp [_handleAddTodo, h]

/-- C3 witness: the amended claim at two concrete states — an empty input is
a no-op, and a whitespace-only input is appended with the field cleared. -/
theorem add_empty_noop_witness :
    _handleAddTodo { _list := [], todoInput := "", storage := none } "u"
        = { _list := [], todoInput := "", storage := none }
    ∧ (_handleAddTodo { _list := [], todoInput := " ", storage := none } "u")._list
        = [{ title := " ", completed := false, id := "u" }]
    ∧ (_handleAddTodo { _list := [], todoInput := " ", storage := none } "u").todoInput = "" := by
  refine ⟨(add_empty_noop { _list := [], todoInput := "", storage := none } "u").1 rfl, ?_, ?_⟩
  · have := ((add_empty_noop { _list := [], todoInput := " ", storage := none } "u").2
      (by decide)).1
    simpa using this
  · exact ((add_empty_noop { _list := [], todoInput := " ", storage := none } "u").2
      (by decide)).2

/-- C8: a successful add (non-empty title) appends exactly one task with the
given title, `completed := false` and the freshly drawn id at the end of the
canonical list, persists the new list, clears the input field, and — when
the fresh id really is new — preserves the id-uniqueness invariant. -/
theorem add_success (s : ElementState) (u : String) (h : s.todoInput ≠ "") :
    (_handleAddTodo s u)._list
        = s._list ++ [{ title := s.todoInput, completed := false, id := u }]
    ∧ (_handleAddTodo s u).storage = some (save ((_handleAddTodo s u)._list))
    ∧ (_handleAddTodo s u).todoInput = ""
    ∧ ((s._list.map TodoItem.id).Nodup → u ∉ s._list.map TodoItem.id →
        ((_handleAddTodo s u)._list.map TodoItem.id).Nodup) := by
  refine ⟨by simp [_handleAddTodo, h], by simp [_handleAddTodo, h], by simp [_handleAddTodo, h], ?_⟩
  intro hnd hu
  simp only [_handleAddTodo, if_neg h, List.map_append, List.map_cons, List.map_nil]
  simpa using List.Nodup.append hnd (List.nodup_singleton u) (by simpa using hu)

/-- C8 witness: adding title "A" with fresh id "u" to a concrete one-task
state appends at the end, persists, clears the field, and keeps ids
distinct. -/
theorem add_success_witness :
    (_handleAddTodo
        { _list := [TodoItem.mk "B" true "v"], todoInput := "A", storage := none }
        "u")._list
        = [TodoItem.mk "B" true "v", TodoItem.mk "A" false "u"]
    ∧ (([TodoItem.mk "B" true "v", TodoItem.mk "A" false "u"] : List TodoItem).map
        TodoItem.id).Nodup := by
  have hmain := add_success
    { _list := [TodoItem.mk "B" true "v"], todoInput := "A", storage := none } "u" (by decide)
  refine ⟨by simpa using hmain.1, ?_⟩
  have := hmain.2.2.2 (by decide) (by decide)
  rw [hmain.1] at this
  exact this

/-- The comparator never orders an incomplete (arriving) task after
anything, so stable insertion puts it in front. -/
theorem sortInsert_incomplete (t : TodoItem) (h : t.completed = false)
    (L : List TodoItem) : sortInsert t L = t :: L := by
  cases L with
  | nil => rfl
  | cons y ys =>
      have hle : sortComparator t y ≤ 0 := by
        cases hy : y.completed <;> simp [sortComparator, h, hy]
      simp [sortInsert, hle]

/-- A completed task compares after every incomplete task, so insertion
walks past an all-incomplete block. -/
theorem sortInsert_completed_append (t : TodoItem) (h : t.completed = true)
    (A B : List TodoItem) (hA : ∀ a ∈ A, a.completed = false) :
    sortInsert t (A ++ B) = A ++ sortInsert t B := by
  induction A with
  | nil => rfl
  | cons a as ih =>
      have ha : a.completed = false := hA a (List.mem_cons_self a as)
      have hgt : ¬sortComparator t a ≤ 0 := by
        simp [sortComparator, h, ha]
      simp only [List.cons_append, sortInsert, if_neg hgt, List.append_eq]
      rw [ih fun x hx => hA x (List.mem_cons_of_mem a hx)]

/-- A completed task compares as equal to every completed task, so stable
insertion puts it in front of an all-completed block. -/
theorem sortInsert_completed_front (t : TodoItem) (h : t.completed = true)
    (B : List TodoItem) (hB : ∀ b ∈ B, b.completed = true) :
    sortInsert t B = t :: B := by
  cases B with
  | nil => rfl
  | cons b bs =>
      have hb : b.completed = true := hB b (List.mem_cons_self b bs)
      have hle : sortComparator t b ≤ 0 := by simp [sortComparator, h, hb]
      simp [sortInsert, hle]

/-- The stable sort of the render path computes exactly the stable
partition: incomplete tasks first, completed tasks second, each block in
canonical order. -/
theorem sortedList_eq_partition (l : List TodoItem) :
    sortedList l = l.filter (fun t => !t.completed) ++ l.filter (fun t => t.completed) := by
  induction l with
  | nil => rfl
  | cons t ts ih =>
      cases ht : t.completed
      · rw [sortedList, ih, sortInsert_incomplete t ht]
        simp [List.filter_cons, ht]
      · rw [sortedList, ih,
          sortInsert_completed_append t ht _ _
            (fun a ha => by simpa using (List.of_mem_filter ha)),
          sortInsert_completed_front t ht _
            (fun b hb => by simpa using (List.of_mem_filter hb))]
        simp [List.filter_cons, ht]

/-- C4: the display ordering is exactly the same multiset of tasks as the
canonical list, with every incomplete task before every completed one and
the order inside each block equal to canonical order (the partition form);
being a pure function of the list, it leaves the canonical list untouched. -/
theorem sorted_display_spec (l : List TodoItem) :
    sortedList l = l.filter (fun t => !t.completed) ++ l.filter (fun t => t.completed)
    ∧ (sortedList l).Perm l := by
  refine ⟨sortedList_eq_partition l, ?_⟩
  rw [sortedList_eq_partition l]
  have hfun : (fun t : TodoItem => t.completed) = fun t => !(!t.completed) := by
    funext t
    exact (Bool.not_not t.completed).symm
  rw [hfun]
  exact List.filter_append_perm _ l

/-- In a burst — every request arriving strictly within 300 ms of the
previous one — only the final request's timer survives, so exactly one
callback fires, 300 ms after the last request, with the last requested
id. -/
theorem debounceFires_burst (e : Nat × String) (rest : List (Nat × String))
    (h2 : List.Chain' (fun a b => b.1 < a.1 + 300) (e :: rest)) :
    debounceFires 300 (e :: rest)
      = [(((e :: rest).getLast (List.cons_ne_nil e rest)).1 + 300,
          ((e :: rest).getLast (List.cons_ne_nil e rest)).2)] := by
  induction rest generalizing e with
  | nil => rfl
  | cons e2 rest2 ih =>
      have hlt : e2.1 < e.1 + 300 := (List.chain'_cons.mp h2).1
      have htail : List.Chain' (fun a b => b.1 < a.1 + 300) (e2 :: rest2) :=
        (List.chain'_cons.mp h2).2
      rw [debounceFires, if_pos hlt, ih e2 htail,
        List.getLast_cons (List.cons_ne_nil e2 rest2)]

/-- C6: for any non-empty burst of toggle requests in which consecutive
arrivals are less than 300 ms apart, the debounce gate fires exactly one
callback — with the last requested id, 300 ms after the last request — and
the whole burst's effect on the component is a single `_handleCheckedTodo`
(one flip, persisted once) of that id. -/
theorem debounce_burst_spec (es : List (Nat × String)) (h1 : es ≠ [])
    (h2 : List.Chain' (fun a b => b.1 < a.1 + 300) es) :
    debounceFires 300 es = [((es.getLast h1).1 + 300, (es.getLast h1).2)]
    ∧ ∀ s : ElementState, debouncedCheckTodo s es = _handleCheckedTodo s (es.getLast h1).2 := by
  match es, h1 with
  | e :: rest, _ =>
      have hfire := debounceFires_burst e rest h2
      exact ⟨hfire, fun s => by rw [debouncedCheckTodo, hfire]; rfl⟩

/-- C6 witness: two toggle requests for the same id 10 ms apart collapse to
one flip, fired at 310 ms, and the component state shows a single applied
toggle. -/
theorem debounce_burst_spec_witness :
    debounceFires 300 [(0, "a"), (10, "a")] = [(310, "a")]
    ∧ debouncedCheckTodo { _list := [TodoItem.mk "A" false "a"], todoInput := "", storage := none }
          [(0, "a"), (10, "a")]
        = _handleCheckedTodo { _list := [TodoItem.mk "A" false "a"], todoInput := "", storage := none }
            "a" := by
  have hmain := debounce_burst_spec [(0, "a"), (10, "a")] (by decide)
    (List.chain'_pair.mpr (by decide))
  exact ⟨hmain.1, hmain.2 { _list := [TodoItem.mk "A" false "a"], todoInput := "", storage := none }⟩

/-- Running the loader's per-record pass over a saved list spreads each
record and overwrites its `id` property in place with the next fresh id. -/
theorem loadedItems_encode (fresh : Nat → String) (x : List TodoItem) :
    ∀ i : Nat, loadedItems fresh i (x.map encodeItem)
      = (reassignIds fresh i x).map encodeItem := by
  induction x with
  | nil => intro i; rfl
  | cons t ts ih =>
      intro i
      simp only [List.map_cons, loadedItems, reassignIds, ih (i + 1)]
      rfl

/-- C1 counterexample: the claim says ids survive the save/load round trip,
but the loader overwrites every record's `id` with a fresh
`crypto.randomUUID()` value; saving a task with id "a" and reloading while
the generator yields "b" does not return the original list. -/
theorem save_load_id_counterexample :
    load (some (save [{ title := "A", completed := false, id := "a" }])) (fun _ => "b")
      ≠ Except.ok (([{ title := "A", completed := false, id := "a" }] : List TodoItem).map
          encodeItem) := by
  simp [load, save, jsonParse, loadedItems, jsSpread, setProp, encodeItem]

/-- C1 amended: `save(x); load()` returns the tasks of `x` in order with
title and completed flag preserved, but every record's id is replaced by a
freshly generated one (record i gets the i-th fresh id) — ids are not
stable across the save/load boundary, even for records that were saved with
an id. -/
theorem save_load_roundtrip (x : List TodoItem) (fresh : Nat → String) :
    load (some (save x)) fresh = Except.ok ((reassignIds fresh 0 x).map encodeItem) := by
  have hred : load (some (save x)) fresh
      = Except.ok (loadedItems fresh 0 (x.map encodeItem)) := rfl
  rw [hred, loadedItems_encode fresh x 0]

/-- C2 counterexample: the claim says a blob that is not parseable yields an
empty list and load never throws, but `JSON.parse` of non-JSON text throws
a `SyntaxError` that nothing catches. -/
theorem load_invalid_counterexample :
    load (some (Blob.invalid "oops")) (fun _ => "u")
      ≠ Except.ok ([] : List Json) := by
  simp [load, jsonParse]

/-- C2 amended: a missing key and the empty string (both falsy) are replaced
by `"[]"` and load yields the empty list without error; but a non-empty blob
that is not valid JSON makes `JSON.parse` throw, a valid JSON value that is
not an array makes `.map` throw, and a parseable array never fails — it
yields one record per element (no empty-list fallback). -/
theorem load_error_spec (fresh : Nat → String) :
    load none fresh = Except.ok []
    ∧ load (some Blob.empty) fresh = Except.ok []
    ∧ (∀ s : String, load (some (Blob.invalid s)) fresh = Except.error JsError.parseError)
    ∧ (∀ j : Json, (∀ xs : List Json, j ≠ Json.arr xs) →
        load (some (Blob.val j)) fresh = Except.error JsError.typeError)
    ∧ (∀ xs : List Json, ∃ ys : List Json,
        load (some (Blob.val (Json.arr xs))) fresh = Except.ok ys ∧ ys.length = xs.length) := by
  refine ⟨rfl, rfl, fun s => rfl, ?_, ?_⟩
  · intro j hj
    cases j with
    | arr xs => exact absurd rfl (hj xs)
    | null => rfl
    | bool b => rfl
    | num n => rfl
    | str s => rfl
    | obj fs => rfl
  · intro xs
    refine ⟨loadedItems fresh 0 xs, rfl, ?_⟩
    have h : ∀ (i : Nat) (ys : List Json), (loadedItems fresh i ys).length = ys.length := by
      intro i ys
      induction ys generalizing i with
      | nil => rfl
      | cons y rest ih => simp [loadedItems, ih (i + 1)]
    exact h 0 xs

/-- C2 witness: the amended error behaviour at concrete blobs — a non-array
JSON value (the number 5) throws a `TypeError`, and a two-element array of
non-record values still yields two records. -/
theorem load_error_spec_witness :
    (∀ xs : List Json, Json.num 5 ≠ Json.arr xs)
    ∧ load (some (Blob.val (Json.num 5))) (fun _ => "u") = Except.error JsError.typeError
    ∧ (∃ ys : List Json,
        load (some (Blob.val (Json.arr [Json.num 1, Json.num 2]))) (fun _ => "u") = Except.ok ys
          ∧ ys.length = 2) := by
  refine ⟨?_, ?_, ?_⟩
  · intro xs h
    cases h
  · exact (load_error_spec (fun _ => "u")).2.2.2.1 (Json.num 5) (fun xs h => by cases h)
  · exact (load_error_spec (fun _ => "u")).2.2.2.2 [Json.num 1, Json.num 2]

end TodoLit
